import Mathlib

/-!
Verification development for the logex structured-logging core.

The definitions below are a shallow embedding of the Go sources:
fields.go (field maps, reserved keys, typed accessors), loglevel.go
(level constants and text marshalling), line.go (the line builder with
lazy clone-on-write enrichment and emission calls) and the named-sink
logger (print, AddOutput, error callback).

Modelling conventions:
* Go `map[string]interface{}` becomes an association list with unique
  keys maintained by the setter; dynamically typed values become the
  tagged union `Value` (timestamps as `Nat`, errors by their message).
* Go strings handled by the level marshaller become `List Char`; the
  relevant fragment of `strings.ToLower`/`TrimSpace` is ASCII.
* Mutation is made explicit: a method that may mutate its receiver
  returns the receiver's new state alongside its result.  A Go runtime
  panic (failed type assertion) is `Except.error ()`.
* Runtime-provided data (caller file/line, collected stack frames, the
  wall clock, a writer's success or failure) are parameters.
-/

set_option maxHeartbeats 1000000
set_option linter.unusedVariables false

namespace Logex

/-- A stack frame record: the source stores each frame as a fresh Fields
map holding exactly the file, line and func keys, modelled flat. -/
structure FrameV where
  file : String
  line : Int
  fn : String
deriving DecidableEq

/-- Dynamically typed field values (Go interface values) as a tagged
union.  `vNil` is the nil interface; `vErr` a non-nil error carrying its
message; `vErrPrinter` the errorprinter wrapper from line.go; `vUser` an
opaque user-supplied value. -/
inductive Value where
  | vTime (t : Nat)
  | vStr (s : String)
  | vLevel (l : Nat)
  | vInt (n : Int)
  | vNil
  | vErr (msg : String)
  | vErrPrinter (msg : String)
  | vFrames (fs : List FrameV)
  | vUser (id : Nat)
deriving DecidableEq

/-- The contents of a `Fields` map, as an association list. -/
abbrev FieldsL := List (String × Value)

/-- Errors of the logex package (errorex values in the source). -/
inductive LogexErr where
  | reservedKey (key : String)
  | invalidName
  | duplicateName (name : String)
deriving DecidableEq

/-- Map lookup (`f.fieldsMap[key]`), also `Fields.Get`. -/
def Fields.Get : FieldsL → String → Option Value
  | [], _ => none
  | (k', v') :: t, k => if k' = k then some v' else Fields.Get t k

/-- Map write (`f.fieldsMap[key] = value`), the internal `Fields.set`:
writes unconditionally, including reserved keys. -/
def Fields.set : FieldsL → String → Value → FieldsL
  | [], k, v => [(k, v)]
  | (k', v') :: t, k, v =>
      if k' = k then (k, v) :: t else (k', v') :: Fields.set t k v

/-- The reserved keys of fields.go. -/
def reservedkeys : List String :=
  ["time", "message", "loglevel", "error", "frames", "file", "line", "func"]

/-- fields.go `keyreserved`. -/
def keyreserved (key : String) : Bool := reservedkeys.contains key

/-- fields.go `Fields.Set`, the public mutator: returns the unchanged
map and `ErrReservedKey` for a reserved key, otherwise writes. -/
def Fields.Set (f : FieldsL) (key : String) (value : Value) :
    FieldsL × Option LogexErr :=
  if keyreserved key then (f, some (.reservedKey key))
  else (Fields.set f key value, none)

/-- fields.go `Fields.Time`: zero time when absent, panic on a failed
`t.(time.Time)` assertion. -/
def Fields.Time (f : FieldsL) : Except Unit Nat :=
  match Fields.Get f "time" with
  | none => .ok 0
  | some (.vTime t) => .ok t
  | some _ => .error ()

/-- fields.go `Fields.Message`. -/
def Fields.Message (f : FieldsL) : Except Unit String :=
  match Fields.Get f "message" with
  | none => .ok ""
  | some (.vStr s) => .ok s
  | some _ => .error ()

/-- fields.go `Fields.LogLevel`. -/
def Fields.LogLevel (f : FieldsL) : Except Unit Nat :=
  match Fields.Get f "loglevel" with
  | none => .ok 0
  | some (.vLevel l) => .ok l
  | some _ => .error ()

/-- fields.go `Fields.Error`: nil when absent, the explicit `err == nil`
check, then the `err.(error)` assertion (which both plain errors and the
errorprinter wrapper satisfy). -/
def Fields.Error (f : FieldsL) : Except Unit (Option String) :=
  match Fields.Get f "error" with
  | none => .ok none
  | some .vNil => .ok none
  | some (.vErr m) => .ok (some m)
  | some (.vErrPrinter m) => .ok (some m)
  | some _ => .error ()

/-- fields.go `Fields.Frames`: nil when absent, panic on a failed
`fields.([]*Fields)` assertion. -/
def Fields.Frames (f : FieldsL) : Except Unit (Option (List FrameV)) :=
  match Fields.Get f "frames" with
  | none => .ok none
  | some (.vFrames fs) => .ok (some fs)
  | some _ => .error ()

/-- fields.go `Fields.File`. -/
def Fields.File (f : FieldsL) : Except Unit String :=
  match Fields.Get f "file" with
  | none => .ok ""
  | some (.vStr s) => .ok s
  | some _ => .error ()

/-- fields.go `Fields.Line`: -1 when absent. -/
def Fields.Line (f : FieldsL) : Except Unit Int :=
  match Fields.Get f "line" with
  | none => .ok (-1)
  | some (.vInt n) => .ok n
  | some _ => .error ()

/-- fields.go `Fields.Func`. -/
def Fields.Func (f : FieldsL) : Except Unit String :=
  match Fields.Get f "func" with
  | none => .ok ""
  | some (.vStr s) => .ok s
  | some _ => .error ()

/-! Log levels, from loglevel.go. -/

def LevelNone : Nat := 0
def LevelMute : Nat := 1
def LevelError : Nat := 2
def LevelWarning : Nat := 3
def LevelInfo : Nat := 4
def LevelDebug : Nat := 5
def LevelCustom : Nat := 6
def LevelPrint : Nat := 255

/-- ASCII lower-casing of one character (the fragment of
`strings.ToLower` relevant to level texts). -/
def lowerChar (c : Char) : Char :=
  if 65 ≤ c.toNat ∧ c.toNat ≤ 90 then Char.ofNat (c.toNat + 32) else c

/-- `strings.ToLower` on the modelled strings. -/
def toLowerL (s : List Char) : List Char := s.map lowerChar

/-- `strings.HasPrefix`. -/
def hasPrefixL : List Char → List Char → Bool
  | _, [] => true
  | [], _ :: _ => false
  | c :: t, p :: pt => c == p && hasPrefixL t pt

/-- `strings.TrimPrefix`. -/
def dropPrefixL (s p : List Char) : List Char :=
  if hasPrefixL s p then s.drop p.length else s

/-- `strings.HasSuffix`. -/
def hasSuffixL (s p : List Char) : Bool := hasPrefixL s.reverse p.reverse

/-- `strings.TrimSuffix`. -/
def dropSuffixL (s p : List Char) : List Char :=
  if hasSuffixL s p then (s.reverse.drop p.length).reverse else s

/-- ASCII whitespace, the fragment of `unicode.IsSpace` relevant here. -/
def isSpaceC (c : Char) : Bool :=
  c.toNat = 32 || c.toNat = 9 || c.toNat = 10 ||
  c.toNat = 13 || c.toNat = 11 || c.toNat = 12

/-- `strings.TrimSpace`. -/
def trimSpaceL (s : List Char) : List Char :=
  ((s.dropWhile isSpaceC).reverse.dropWhile isSpaceC).reverse

/-- Decimal digit test used by `strconv.Atoi`. -/
def isDigitC (c : Char) : Bool := 48 ≤ c.toNat && c.toNat ≤ 57

/-- Accumulating decimal parse of a digit run; fails on a non-digit. -/
def digitsVal : List Char → Nat → Option Nat
  | [], acc => some acc
  | c :: t, acc =>
      if isDigitC c then digitsVal t (acc * 10 + (c.toNat - 48)) else none

/-- All-digits decimal parse; fails on the empty string. -/
def parseDigits (s : List Char) : Option Nat :=
  if s.isEmpty then none else digitsVal s 0

/-- `strconv.Atoi`: optional sign then a non-empty digit run (the model
is arbitrary precision; the claims only exercise small values). -/
def Atoi (s : List Char) : Option Int :=
  match s with
  | [] => none
  | c :: t =>
      if c.toNat = 43 then (parseDigits t).map (fun m => (m : Int))
      else if c.toNat = 45 then (parseDigits t).map (fun m => -(m : Int))
      else (parseDigits (c :: t)).map (fun m => (m : Int))

/-- Go's `LogLevel(lvl)` conversion of an `int` to the byte-sized level:
truncation to the low 8 bits. -/
def byteOfInt (n : Int) : Nat := (n % 256).toNat

/-- Decimal digits of a natural number, as `fmt.Sprintf` renders
`%d` for a byte. -/
def natDigits (n : Nat) : List Char := (Nat.repr n).toList

/-- loglevel.go `LogLevel.String`. -/
def LevelString (ll : Nat) : List Char :=
  if ll = LevelNone then ['N', 'o', 'n', 'e']
  else if ll = LevelMute then ['M', 'u', 't', 'e']
  else if ll = LevelError then ['E', 'r', 'r', 'o', 'r']
  else if ll = LevelWarning then ['W', 'a', 'r', 'n', 'i', 'n', 'g']
  else if ll = LevelInfo then ['I', 'n', 'f', 'o']
  else if ll = LevelDebug then ['D', 'e', 'b', 'u', 'g']
  else if ll = LevelPrint then ['P', 'r', 'i', 'n', 't']
  else if LevelCustom ≤ ll ∧ ll < LevelPrint then
    ['C', 'u', 's', 't', 'o', 'm', '('] ++ natDigits ll ++ [')']
  else []

/-- loglevel.go `LogLevel.MarshalText` (never errors). -/
def MarshalText (ll : Nat) : List Char := LevelString ll

/-- loglevel.go `LogLevel.UnmarshalText`; `none` models
`ErrUnmarshalLevel`. -/
def UnmarshalText (text : List Char) : Option Nat :=
  let s := toLowerL text
  if s = ['n', 'o', 'n', 'e'] then some LevelNone
  else if s = ['m', 'u', 't', 'e'] then some LevelMute
  else if s = ['e', 'r', 'r', 'o', 'r'] then some LevelError
  else if s = ['w', 'a', 'r', 'n', 'i', 'n', 'g'] then some LevelWarning
  else if s = ['i', 'n', 'f', 'o'] then some LevelInfo
  else if s = ['d', 'e', 'b', 'u', 'g'] then some LevelDebug
  else if s = ['p', 'r', 'i', 'n', 't'] then some LevelPrint
  else if hasPrefixL s ['c', 'u', 's', 't', 'o', 'm'] then
    let s1 := dropPrefixL s ['c', 'u', 's', 't', 'o', 'm']
    if hasPrefixL s1 ['('] && hasSuffixL s1 [')'] then
      match Atoi (trimSpaceL (dropSuffixL (dropPrefixL s1 ['(']) [')'])) with
      | some n => some (byteOfInt n)
      | none => none
    else none
  else none

/-! The line builder, from line.go (the WithCaller/WithStack/WithFields
revision with lazy clone-on-write). -/

/-- line.go `Line`: its field map and the `cloned` flag.  The owning
logger reference is carried by `LoggerState` instead. -/
structure Line where
  fields : FieldsL
  cloned : Bool
deriving DecidableEq

/-- line.go `NewLine`: empty fields, not cloned. -/
def NewLine : Line := { fields := [], cloned := false }

/-- The field-copying loop of `lazyclone` (`Walk` + `set` into a fresh
map). -/
def copyFields (f : FieldsL) : FieldsL :=
  f.foldl (fun acc kv => Fields.set acc kv.1 kv.2) []

/-- line.go `lazyclone`.  The boolean records whether a fresh `Line` was
allocated (false: the receiver itself is returned). -/
def lazyclone (p : Line) : Line × Bool :=
  if p.cloned then (p, false)
  else ({ fields := copyFields p.fields, cloned := true }, true)

/-- Result of an enrichment call: the receiver's state after the call
(`self`), the returned builder (`ret`) and whether a new builder was
allocated (`fresh`). -/
structure EnrichResult where
  self : Line
  ret : Line
  fresh : Bool
deriving DecidableEq

/-- line.go `Line.WithCaller`.  `ok`, `file` and `line` model the
`runtime.Caller(skip)` results. -/
def WithCaller (p : Line) (ok : Bool) (file : String) (line : Int) :
    EnrichResult :=
  let lc := lazyclone p
  let cf := Fields.set (Fields.set lc.1.fields "file" (.vStr file)) "line" (.vInt line)
  let enr := if ok then { lc.1 with fields := cf } else lc.1
  { self := if lc.2 then p else enr, ret := enr, fresh := lc.2 }

/-- line.go `Line.WithStack`.  `ok` models `runtime.Callers(..) > 0` and
`fs` the collected frame slice. -/
def WithStack (p : Line) (ok : Bool) (fs : List FrameV) : EnrichResult :=
  let lc := lazyclone p
  let enr :=
    if ok then { lc.1 with fields := Fields.set lc.1.fields "frames" (.vFrames fs) }
    else lc.1
  { self := if lc.2 then p else enr, ret := enr, fresh := lc.2 }

/-- The `val.(error)` test plus errorprinter wrapping done by
`WithFields` on each merged value. -/
def wrapErrVal (v : Value) : Value :=
  match v with
  | .vErr m => .vErrPrinter m
  | .vErrPrinter m => .vErrPrinter m
  | v => v

/-- The `fields.Walk` merge loop of `WithFields`: each entry goes
through the public `Fields.Set`, whose error is discarded (so reserved
keys are silently dropped). -/
def withFieldsApply (base : FieldsL) (custom : FieldsL) : FieldsL :=
  custom.foldl (fun acc kv => (Fields.Set acc kv.1 (wrapErrVal kv.2)).1) base

/-- line.go `Line.WithFields`. -/
def WithFields (p : Line) (custom : FieldsL) : EnrichResult :=
  let lc := lazyclone p
  let enr := { lc.1 with fields := withFieldsApply lc.1.fields custom }
  { self := if lc.2 then p else enr, ret := enr, fresh := lc.2 }

/-! The named-sink logger. -/

/-- A registered sink: its name and the behaviour of its writer
(`none` = the write succeeds, `some e` = the write fails with error
message `e`).  The formatter is irrelevant to the claims: each write is
recorded as the pair (sink name, fields snapshot). -/
structure OutputS where
  name : String
  writeErr : Option String
deriving DecidableEq

/-- What a dispatch did: the writes performed (sink name with the fields
snapshot handed to its formatter/writer) and the error values passed to
the configured error callback. -/
structure DispatchResult where
  writes : List (String × FieldsL)
  efCalls : List String
deriving DecidableEq

/-- Logger state: the sink registry (Go map iteration determinised as
registration order), the threshold, whether an error callback is
configured, and the base line builder `l.Log`. -/
structure LoggerState where
  outputs : List OutputS
  lvl : Nat
  efSet : Bool
  base : Line
deriving DecidableEq

/-- Registry lookup `l.outputs[name]`. -/
def lookupOut (outs : List OutputS) (n : String) : Option OutputS :=
  outs.find? (fun o => o.name == n)

/-- The all-sinks branch of `Logger.print`: write to every sink; a
failed write is reported to the error callback when one is set and the
loop continues regardless. -/
def dispatchAll (efSet : Bool) (f : FieldsL) : List OutputS → DispatchResult
  | [] => { writes := [], efCalls := [] }
  | o :: t =>
      let r := dispatchAll efSet f t
      { writes := (o.name, f) :: r.writes,
        efCalls :=
          match o.writeErr with
          | some e => if efSet then e :: r.efCalls else r.efCalls
          | none => r.efCalls }

/-- The named-subset branch of `Logger.print`: unknown names are
silently skipped; error handling as in `dispatchAll`. -/
def dispatchNamed (efSet : Bool) (f : FieldsL) (outs : List OutputS) :
    List String → DispatchResult
  | [] => { writes := [], efCalls := [] }
  | n :: t =>
      let r := dispatchNamed efSet f outs t
      match lookupOut outs n with
      | some o =>
          { writes := (o.name, f) :: r.writes,
            efCalls :=
              match o.writeErr with
              | some e => if efSet then e :: r.efCalls else r.efCalls
              | none => r.efCalls }
      | none => r

/-- The `fields.LogLevel()` read performed by the gate.  Dispatched
fields are always stamped by `flush`, so the stored value is a `vLevel`;
absence yields `LevelNone` as in the accessor. -/
def levelOfFields (f : FieldsL) : Nat :=
  match Fields.Get f "loglevel" with
  | some (.vLevel l) => l
  | _ => LevelNone

/-- `Logger.print` from the named-sink logger: gate by
`fields.LogLevel() > l.lvl` (dropped events produce no writes and no
callback invocations), dispatch to the selected sinks, then replace the
base builder `l.Log` with a fresh line.  The Go func returns nothing:
dispatch has no error channel at all. -/
def Logger.print (st : LoggerState) (f : FieldsL) (outputnames : List String) :
    LoggerState × DispatchResult :=
  if st.lvl < levelOfFields f then (st, { writes := [], efCalls := [] })
  else
    ({ st with base := NewLine },
     if 0 < outputnames.length then dispatchNamed st.efSet f st.outputs outputnames
     else dispatchAll st.efSet f st.outputs)

/-- The three stamps done by line.go `Line.flush` before handing the
fields to the logger. -/
def flushFields (f : FieldsL) (level : Nat) (msg : String) (now : Nat) :
    FieldsL :=
  Fields.set (Fields.set (Fields.set f "loglevel" (.vLevel level))
    "message" (.vStr msg)) "time" (.vTime now)

/-- line.go `Line.flush` invoked on the logger's base builder: stamp the
base builder's fields in place, then `l.print` (which may replace the
base builder). -/
def flushBase (st : LoggerState) (level : Nat) (msg : String) (now : Nat) :
    LoggerState × DispatchResult :=
  Logger.print { st with base := { st.base with fields := flushFields st.base.fields level msg now } }
    (flushFields st.base.fields level msg now) []

/-- line.go `Line.Debugf` on the base builder (`msg` models the
formatted message). -/
def Debugf (st : LoggerState) (msg : String) (now : Nat) :=
  flushBase st LevelDebug msg now

/-- line.go `Line.Debugln` (`fmt.Sprint(args...) + "\n"`). -/
def Debugln (st : LoggerState) (msg : String) (now : Nat) :=
  flushBase st LevelDebug (msg ++ "\n") now

/-- line.go `Line.Infof`. -/
def Infof (st : LoggerState) (msg : String) (now : Nat) :=
  flushBase st LevelInfo msg now

/-- line.go `Line.Infoln`. -/
def Infoln (st : LoggerState) (msg : String) (now : Nat) :=
  flushBase st LevelInfo (msg ++ "\n") now

/-- line.go `Line.Warningf`. -/
def Warningf (st : LoggerState) (msg : String) (now : Nat) :=
  flushBase st LevelWarning msg now

/-- line.go `Line.Warningln`. -/
def Warningln (st : LoggerState) (msg : String) (now : Nat) :=
  flushBase st LevelWarning (msg ++ "\n") now

/-- line.go `Line.Errorf`: stores the error under the reserved key via
the internal setter, then flushes at `LevelError`. -/
def Errorf (st : LoggerState) (err : Value) (msg : String) (now : Nat) :=
  flushBase { st with base := { st.base with fields := Fields.set st.base.fields "error" err } }
    LevelError msg now

/-- line.go `Line.Errorln`. -/
def Errorln (st : LoggerState) (err : Value) (msg : String) (now : Nat) :=
  flushBase { st with base := { st.base with fields := Fields.set st.base.fields "error" err } }
    LevelError (msg ++ "\n") now

/-- line.go `Line.Printf`: the source flushes at `LevelPrint`, passing
the `level` argument nowhere. -/
def Printf (st : LoggerState) (level : Nat) (msg : String) (now : Nat) :=
  flushBase st LevelPrint msg now

/-- line.go `Line.Println`. -/
def Println (st : LoggerState) (level : Nat) (msg : String) (now : Nat) :=
  flushBase st LevelPrint (msg ++ "\n") now

/-- `Logger.AddOutput` from the named-sink logger: empty name rejected,
duplicate name rejected, otherwise the sink is registered.  The first
component is the registry after the call. -/
def AddOutput (outs : List OutputS) (name : String) (wErr : Option String) :
    List OutputS × Option LogexErr :=
  if name = "" then (outs, some .invalidName)
  else
    match lookupOut outs name with
    | some _ => (outs, some (.duplicateName name))
    | none => (outs ++ [{ name := name, writeErr := wErr }], none)

/-- Key list of a field map. -/
def keysOf (f : FieldsL) : List String := f.map Prod.fst

/-- Well-formedness of the association-list model: unique keys (every
map produced by `Fields.set` from the empty map satisfies this). -/
def WF (f : FieldsL) : Prop := (keysOf f).Nodup

instance (f : FieldsL) : Decidable (WF f) := by
  unfold WF; infer_instance

/-- The delivery predicate asserted by claim C2: delivered when
`L ≤ T`, except that a `Print`-level event is claimed to pass whenever
the threshold is above `Mute`. -/
def claimC2Delivered (L T : Nat) : Bool :=
  (L ≤ T) || (L = LevelPrint && LevelMute < T)

/-! Helper lemmas about the field-map model. -/

theorem Get_set_eq (f : FieldsL) (k : String) (v : Value) :
    Fields.Get (Fields.set f k v) k = some v := by
  induction f with
  | nil => simp [Fields.set, Fields.Get]
  | cons kv t ih =>
      obtain ⟨k', v'⟩ := kv
      by_cases h : k' = k
      · simp [Fields.set, h, Fields.Get]
      · simp [Fields.set, h, Fields.Get, ih]

theorem Get_set_ne (f : FieldsL) (k k' : String) (v : Value) (h : k' ≠ k) :
    Fields.Get (Fields.set f k v) k' = Fields.Get f k' := by
  have hkk : ¬(k = k') := fun he => h he.symm
  induction f with
  | nil => simp [Fields.set, Fields.Get, hkk]
  | cons kv t ih =>
      obtain ⟨k0, v0⟩ := kv
      by_cases h0 : k0 = k
      · subst h0
        simp [Fields.set, Fields.Get, hkk]
      · by_cases h1 : k0 = k'
        · subst h1
          simp [Fields.set, h0, Fields.Get]
        · simp [Fields.set, h0, Fields.Get, h1, ih]

theorem Get_eq_none_of_not_mem (f : FieldsL) (k : String)
    (h : k ∉ keysOf f) : Fields.Get f k = none := by
  induction f with
  | nil => simp [Fields.Get]
  | cons kv t ih =>
      obtain ⟨k0, v0⟩ := kv
      simp only [keysOf, List.map_cons, List.mem_cons] at h
      push_neg at h
      simp only [Fields.Get]
      rw [if_neg (fun he => h.1 he.symm), ih h.2]

theorem set_append_of_not_mem (f : FieldsL) (k : String) (v : Value)
    (h : k ∉ keysOf f) : Fields.set f k v = f ++ [(k, v)] := by
  induction f with
  | nil => simp [Fields.set]
  | cons kv t ih =>
      obtain ⟨k0, v0⟩ := kv
      simp only [keysOf, List.map_cons, List.mem_cons] at h
      push_neg at h
      simp only [Fields.set]
      rw [if_neg (fun he => h.1 he.symm), ih h.2]
      simp

theorem WF_cons (k : String) (v : Value) (t : FieldsL) (h : WF ((k, v) :: t)) :
    k ∉ keysOf t ∧ WF t := by
  simp only [WF, keysOf, List.map_cons, List.nodup_cons] at h
  exact h

theorem foldl_set_eq (f : FieldsL) :
    ∀ acc : FieldsL, (∀ x ∈ keysOf f, x ∉ keysOf acc) → WF f →
      f.foldl (fun a kv => Fields.set a kv.1 kv.2) acc = acc ++ f := by
  induction f with
  | nil => intro acc _ _; simp
  | cons kv t ih =>
      intro acc hdis hwf
      obtain ⟨k, v⟩ := kv
      obtain ⟨hkt, hwf'⟩ := WF_cons k v t hwf
      have hkacc : k ∉ keysOf acc := hdis k (by simp [keysOf])
      have hstep : Fields.set acc k v = acc ++ [(k, v)] :=
        set_append_of_not_mem acc k v hkacc
      simp only [List.foldl_cons]
      rw [hstep, ih (acc ++ [(k, v)]) ?_ hwf']
      · simp
      · intro x hx
        have hxk : x ≠ k := fun he => hkt (he ▸ hx)
        have hxacc : x ∉ keysOf acc :=
          hdis x (by simp only [keysOf, List.map_cons, List.mem_cons]; exact Or.inr hx)
        simp only [keysOf, List.map_append, List.mem_append, List.map_cons,
          List.map_nil, List.mem_singleton]
        rintro (hm | hm)
        · exact hxacc hm
        · exact hxk hm

theorem copyFields_eq (f : FieldsL) (h : WF f) : copyFields f = f := by
  simpa [copyFields] using foldl_set_eq f [] (by simp [keysOf]) h

theorem wfa_reserved (custom : FieldsL) :
    ∀ base : FieldsL, ∀ k, keyreserved k = true →
      Fields.Get (withFieldsApply base custom) k = Fields.Get base k := by
  induction custom with
  | nil => intro base k _; simp [withFieldsApply]
  | cons kv t ih =>
      intro base k hres
      obtain ⟨k0, v0⟩ := kv
      have hstep : withFieldsApply base ((k0, v0) :: t) =
          withFieldsApply ((Fields.Set base k0 (wrapErrVal v0)).1) t := by
        simp [withFieldsApply]
      rw [hstep, ih _ k hres]
      by_cases h0 : keyreserved k0
      · simp [Fields.Set, h0]
      · have hne : k ≠ k0 := fun he => h0 (he ▸ hres)
        simp [Fields.Set, h0, Get_set_ne _ _ _ _ hne]

theorem wfa_absent (custom : FieldsL) :
    ∀ base : FieldsL, ∀ k, Fields.Get custom k = none →
      Fields.Get (withFieldsApply base custom) k = Fields.Get base k := by
  induction custom with
  | nil => intro base k _; simp [withFieldsApply]
  | cons kv t ih =>
      intro base k hget
      obtain ⟨k0, v0⟩ := kv
      have hne : k0 ≠ k := by
        intro he
        simp [Fields.Get, he] at hget
      have hget' : Fields.Get t k = none := by
        simpa [Fields.Get, hne] using hget
      have hstep : withFieldsApply base ((k0, v0) :: t) =
          withFieldsApply ((Fields.Set base k0 (wrapErrVal v0)).1) t := by
        simp [withFieldsApply]
      rw [hstep, ih _ k hget']
      by_cases h0 : keyreserved k0
      · simp [Fields.Set, h0]
      · simp [Fields.Set, h0, Get_set_ne _ _ _ _ (fun he => hne he.symm)]

theorem wfa_present (custom : FieldsL) :
    ∀ base : FieldsL, ∀ k v, WF custom → keyreserved k = false →
      Fields.Get custom k = some v →
      Fields.Get (withFieldsApply base custom) k = some (wrapErrVal v) := by
  induction custom with
  | nil => intro base k v _ _ hget; simp [Fields.Get] at hget
  | cons kv t ih =>
      intro base k v hwf hres hget
      obtain ⟨k0, v0⟩ := kv
      obtain ⟨hk0t, hwf'⟩ := WF_cons k0 v0 t hwf
      have hstep : withFieldsApply base ((k0, v0) :: t) =
          withFieldsApply ((Fields.Set base k0 (wrapErrVal v0)).1) t := by
        simp [withFieldsApply]
      by_cases h0 : k0 = k
      · subst h0
        have hv : v = v0 := by simpa [Fields.Get] using hget.symm
        subst hv
        have hnone : Fields.Get t k0 = none := Get_eq_none_of_not_mem t k0 hk0t
        rw [hstep, wfa_absent t _ k0 hnone]
        simp [Fields.Set, hres, Get_set_eq]
      · have hget' : Fields.Get t k = some v := by
          simpa [Fields.Get, h0] using hget
        rw [hstep, ih _ k v hwf' hres hget']

/-- C5: for every key and value, the public mutator `Fields.Set` fails
with `ReservedKeyError` and leaves the map unchanged exactly on the
eight reserved keys, succeeds otherwise, and the internal setter
`Fields.set` always writes, including reserved keys. -/
theorem C5_reserved_key_protection (f : FieldsL) (k : String) (v : Value) :
    (keyreserved k = true → Fields.Set f k v = (f, some (.reservedKey k))) ∧
    (keyreserved k = false → Fields.Set f k v = (Fields.set f k v, none)) ∧
    Fields.Get (Fields.set f k v) k = some v := by
  refine ⟨fun h => ?_, fun h => ?_, Get_set_eq f k v⟩
  · simp [Fields.Set, h]
  · simp [Fields.Set, h]

/-- Witness for C5 at the reserved key "time" and the user key "mirko". -/
theorem C5_reserved_key_protection_witness :
    Fields.Set [] "time" (.vInt 1) = ([], some (.reservedKey "time")) ∧
    Fields.Set [] "mirko" (.vInt 1) = ([("mirko", Value.vInt 1)], none) :=
  ⟨(C5_reserved_key_protection [] "time" (.vInt 1)).1 (by decide),
   (C5_reserved_key_protection [] "mirko" (.vInt 1)).2.1 (by decide)⟩

/-- C6 (amended): each typed accessor returns its documented zero value
when the key is absent and returns the stored value when it has the
right dynamic type, but a stored value of the wrong dynamic type makes
the accessor panic on the unchecked type assertion (modelled as
`Except.error ()`), contrary to the claim's "never panics". -/
theorem C6_typed_accessors (f : FieldsL) :
    (Fields.Get f "time" = none → Fields.Time f = .ok 0) ∧
    (∀ t, Fields.Get f "time" = some (.vTime t) → Fields.Time f = .ok t) ∧
    (∀ v, Fields.Get f "time" = some v → (∀ t, v ≠ .vTime t) →
       Fields.Time f = .error ()) ∧
    (Fields.Get f "message" = none → Fields.Message f = .ok "") ∧
    (∀ s, Fields.Get f "message" = some (.vStr s) → Fields.Message f = .ok s) ∧
    (∀ v, Fields.Get f "message" = some v → (∀ s, v ≠ .vStr s) →
       Fields.Message f = .error ()) ∧
    (Fields.Get f "loglevel" = none → Fields.LogLevel f = .ok 0) ∧
    (∀ l, Fields.Get f "loglevel" = some (.vLevel l) → Fields.LogLevel f = .ok l) ∧
    (∀ v, Fields.Get f "loglevel" = some v → (∀ l, v ≠ .vLevel l) →
       Fields.LogLevel f = .error ()) ∧
    (Fields.Get f "error" = none → Fields.Error f = .ok none) ∧
    (Fields.Get f "error" = some .vNil → Fields.Error f = .ok none) ∧
    (∀ m, Fields.Get f "error" = some (.vErr m) → Fields.Error f = .ok (some m)) ∧
    (∀ v, Fields.Get f "error" = some v → (∀ m, v ≠ .vErr m) →
       (∀ m, v ≠ .vErrPrinter m) → v ≠ .vNil → Fields.Error f = .error ()) ∧
    (Fields.Get f "frames" = none → Fields.Frames f = .ok none) ∧
    (∀ fs, Fields.Get f "frames" = some (.vFrames fs) →
       Fields.Frames f = .ok (some fs)) ∧
    (∀ v, Fields.Get f "frames" = some v → (∀ fs, v ≠ .vFrames fs) →
       Fields.Frames f = .error ()) ∧
    (Fields.Get f "file" = none → Fields.File f = .ok "") ∧
    (∀ v, Fields.Get f "file" = some v → (∀ s, v ≠ .vStr s) →
       Fields.File f = .error ()) ∧
    (Fields.Get f "line" = none → Fields.Line f = .ok (-1)) ∧
    (∀ v, Fields.Get f "line" = some v → (∀ n, v ≠ .vInt n) →
       Fields.Line f = .error ()) ∧
    (Fields.Get f "func" = none → Fields.Func f = .ok "") ∧
    (∀ v, Fields.Get f "func" = some v → (∀ s, v ≠ .vStr s) →
       Fields.Func f = .error ()) := by
  refine ⟨fun h => by simp [Fields.Time, h],
    fun t h => by simp [Fields.Time, h],
    fun v h hne => ?_,
    fun h => by simp [Fields.Message, h],
    fun s h => by simp [Fields.Message, h],
    fun v h hne => ?_,
    fun h => by simp [Fields.LogLevel, h],
    fun l h => by simp [Fields.LogLevel, h],
    fun v h hne => ?_,
    fun h => by simp [Fields.Error, h],
    fun h => by simp [Fields.Error, h],
    fun m h => by simp [Fields.Error, h],
    fun v h hne1 hne2 hne3 => ?_,
    fun h => by simp [Fields.Frames, h],
    fun fs h => by simp [Fields.Frames, h],
    fun v h hne => ?_,
    fun h => by simp [Fields.File, h],
    fun v h hne => ?_,
    fun h => by simp [Fields.Line, h],
    fun v h hne => ?_,
    fun h => by simp [Fields.Func, h],
    fun v h hne => ?_⟩
  · cases v <;> simp [Fields.Time, h]
    exact absurd rfl (hne _)
  · cases v <;> simp [Fields.Message, h]
    exact absurd rfl (hne _)
  · cases v <;> simp [Fields.LogLevel, h]
    exact absurd rfl (hne _)
  · cases v <;> simp [Fields.Error, h]
    · exact absurd rfl hne3
    · exact absurd rfl (hne1 _)
    · exact absurd rfl (hne2 _)
  · cases v <;> simp [Fields.Frames, h]
    exact absurd rfl (hne _)
  · cases v <;> simp [Fields.File, h]
    exact absurd rfl (hne _)
  · cases v <;> simp [Fields.Line, h]
    exact absurd rfl (hne _)
  · cases v <;> simp [Fields.Func, h]
    exact absurd rfl (hne _)

/-- Witness for C6: a map without a loglevel entry yields `LevelNone`
and a stored time of the right type is returned. -/
theorem C6_typed_accessors_witness :
    Fields.LogLevel [] = .ok 0 ∧
    Fields.Time [("time", Value.vTime 7)] = .ok 7 :=
  ⟨(C6_typed_accessors []).2.2.2.2.2.2.1 rfl,
   (C6_typed_accessors [("time", Value.vTime 7)]).2.1 7 rfl⟩

/-- Counterexample to C6 as stated: the `Time` accessor applied to a
map whose "time" entry holds a string panics on the `t.(time.Time)`
type assertion instead of returning the zero value. -/
theorem C6_typed_accessors_counterexample :
    Fields.Time [("time", Value.vStr "x")] = .error () := rfl

theorem lookupOut_append (outs : List OutputS) (n : String) (rest : List OutputS)
    (h : lookupOut outs n = none) :
    lookupOut (outs ++ rest) n = lookupOut rest n := by
  induction outs with
  | nil => simp [lookupOut]
  | cons o t ih =>
      cases hpo : (o.name == n) with
      | true => simp [lookupOut, List.find?_cons_of_pos, hpo] at h
      | false =>
          simp only [lookupOut, List.cons_append] at h ⊢
          rw [List.find?_cons_of_neg _ (by simp [hpo])] at h
          rw [List.find?_cons_of_neg _ (by simp [hpo])]
          exact ih h

/-- C8: `AddOutput` rejects the empty name with `InvalidNameError` and a
duplicate name with `DuplicateNameError`, leaving the registry
unchanged; otherwise it registers the sink under the name. -/
theorem C8_addOutput (outs : List OutputS) (name : String) (wErr : Option String) :
    (name = "" → AddOutput outs name wErr = (outs, some .invalidName)) ∧
    (name ≠ "" → ∀ o, lookupOut outs name = some o →
       AddOutput outs name wErr = (outs, some (.duplicateName name))) ∧
    (name ≠ "" → lookupOut outs name = none →
       AddOutput outs name wErr = (outs ++ [{ name := name, writeErr := wErr }], none) ∧
       lookupOut (AddOutput outs name wErr).1 name =
         some { name := name, writeErr := wErr }) := by
  refine ⟨fun h => by simp [AddOutput, h], fun h o ho => by simp [AddOutput, h, ho],
    fun h hn => ?_⟩
  have heq : AddOutput outs name wErr = (outs ++ [{ name := name, writeErr := wErr }], none) := by
    simp [AddOutput, h, hn]
  refine ⟨heq, ?_⟩
  rw [heq]
  rw [lookupOut_append outs name _ hn]
  simp [lookupOut]

/-- Witness for C8: registering "a" into the empty registry succeeds,
then registering "a" again fails with `DuplicateNameError`, and the
empty name fails with `InvalidNameError`. -/
theorem C8_addOutput_witness :
    AddOutput [] "a" none = ([{ name := "a", writeErr := none }], none) ∧
    AddOutput [{ name := "a", writeErr := none }] "a" none =
      ([{ name := "a", writeErr := none }], some (.duplicateName "a")) ∧
    AddOutput [] "" none = ([], some .invalidName) :=
  ⟨((C8_addOutput [] "a" none).2.2 (by decide) rfl).1,
   (C8_addOutput [{ name := "a", writeErr := none }] "a" none).2.1 (by decide)
     { name := "a", writeErr := none } rfl,
   (C8_addOutput [] "" none).1 rfl⟩

theorem lazyclone_spec (p : Line) (h : WF p.fields) :
    (lazyclone p).1.fields = p.fields ∧ (lazyclone p).1.cloned = true ∧
      (lazyclone p).2 = !p.cloned := by
  cases hc : p.cloned <;> simp [lazyclone, hc, copyFields_eq p.fields h]

/-- C1: each enrichment call (`WithCaller`, `WithStack`, `WithFields`)
on a builder that is not marked cloned allocates a fresh builder marked
cloned, applies the enrichment to the fresh builder's copy of the base
FieldSet and leaves the base builder untouched; on a builder already
marked cloned it mutates that builder in place (no fresh allocation,
the returned builder is the mutated receiver).  The returned FieldSet
is the receiver's FieldSet plus the enrichment: keys outside the
enrichment are preserved, the enrichment entries are present
(`WithFields` merges through the public setter, so entries of `custom`
under reserved keys are dropped and error values are wrapped). -/
theorem C1_enrichment_clone_frame (p : Line) (hWF : WF p.fields)
    (ok : Bool) (file : String) (line : Int) (fs : List FrameV)
    (custom : FieldsL) (hWFc : WF custom) :
    ((WithCaller p ok file line).ret.cloned = true ∧
     (WithStack p ok fs).ret.cloned = true ∧
     (WithFields p custom).ret.cloned = true) ∧
    (p.cloned = false →
       (WithCaller p ok file line).fresh = true ∧
       (WithCaller p ok file line).self = p ∧
       (WithStack p ok fs).fresh = true ∧ (WithStack p ok fs).self = p ∧
       (WithFields p custom).fresh = true ∧ (WithFields p custom).self = p) ∧
    (p.cloned = true →
       (WithCaller p ok file line).fresh = false ∧
       (WithCaller p ok file line).self = (WithCaller p ok file line).ret ∧
       (WithStack p ok fs).fresh = false ∧
       (WithStack p ok fs).self = (WithStack p ok fs).ret ∧
       (WithFields p custom).fresh = false ∧
       (WithFields p custom).self = (WithFields p custom).ret) ∧
    ((WithCaller p ok file line).ret.fields =
       (if ok then Fields.set (Fields.set p.fields "file" (.vStr file)) "line" (.vInt line)
        else p.fields)) ∧
    ((WithStack p ok fs).ret.fields =
       (if ok then Fields.set p.fields "frames" (.vFrames fs) else p.fields)) ∧
    ((WithFields p custom).ret.fields = withFieldsApply p.fields custom) ∧
    (∀ k, k ≠ "file" → k ≠ "line" →
       Fields.Get (WithCaller p ok file line).ret.fields k = Fields.Get p.fields k) ∧
    (ok = true →
       Fields.Get (WithCaller p ok file line).ret.fields "file" = some (.vStr file) ∧
       Fields.Get (WithCaller p ok file line).ret.fields "line" = some (.vInt line)) ∧
    (∀ k, k ≠ "frames" →
       Fields.Get (WithStack p ok fs).ret.fields k = Fields.Get p.fields k) ∧
    (ok = true →
       Fields.Get (WithStack p ok fs).ret.fields "frames" = some (.vFrames fs)) ∧
    (∀ k, Fields.Get custom k = none →
       Fields.Get (WithFields p custom).ret.fields k = Fields.Get p.fields k) ∧
    (∀ k, keyreserved k = true →
       Fields.Get (WithFields p custom).ret.fields k = Fields.Get p.fields k) ∧
    (∀ k v, keyreserved k = false → Fields.Get custom k = some v →
       Fields.Get (WithFields p custom).ret.fields k = some (wrapErrVal v)) := by
  have hcl := copyFields_eq p.fields hWF
  have hretC : (WithCaller p ok file line).ret.fields =
      (if ok then Fields.set (Fields.set p.fields "file" (.vStr file)) "line" (.vInt line)
       else p.fields) := by
    cases hc : p.cloned <;> cases ok <;> simp [WithCaller, lazyclone, hc, hcl]
  have hretS : (WithStack p ok fs).ret.fields =
      (if ok then Fields.set p.fields "frames" (.vFrames fs) else p.fields) := by
    cases hc : p.cloned <;> cases ok <;> simp [WithStack, lazyclone, hc, hcl]
  have hretF : (WithFields p custom).ret.fields = withFieldsApply p.fields custom := by
    cases hc : p.cloned <;> simp [WithFields, lazyclone, hc, hcl]
  refine ⟨⟨?_, ?_, ?_⟩, fun hc => ?_, fun hc => ?_, hretC, hretS, hretF,
    ?_, ?_, ?_, ?_, ?_, ?_, ?_⟩
  · cases hc : p.cloned <;> cases ok <;> simp [WithCaller, lazyclone, hc]
  · cases hc : p.cloned <;> cases ok <;> simp [WithStack, lazyclone, hc]
  · cases hc : p.cloned <;> simp [WithFields, lazyclone, hc]
  · refine ⟨?_, ?_, ?_, ?_, ?_, ?_⟩ <;>
      simp [WithCaller, WithStack, WithFields, lazyclone, hc]
  · refine ⟨?_, ?_, ?_, ?_, ?_, ?_⟩ <;>
      simp [WithCaller, WithStack, WithFields, lazyclone, hc]
  · intro k h1 h2
    rw [hretC]
    cases ok
    · simp
    · simp only [if_pos]
      rw [Get_set_ne _ _ _ _ h2, Get_set_ne _ _ _ _ h1]
  · intro hok
    subst hok
    rw [hretC]
    simp only [if_pos]
    exact ⟨by rw [Get_set_ne _ _ _ _ (by decide)]; exact Get_set_eq _ _ _,
      Get_set_eq _ _ _⟩
  · intro k h1
    rw [hretS]
    cases ok
    · simp
    · simp only [if_pos]
      rw [Get_set_ne _ _ _ _ h1]
  · intro hok
    subst hok
    rw [hretS]
    simp only [if_pos]
    exact Get_set_eq _ _ _
  · intro k hk
    rw [hretF]
    exact wfa_absent custom p.fields k hk
  · intro k hk
    rw [hretF]
    exact wfa_reserved custom p.fields k hk
  · intro k v hres hget
    rw [hretF]
    exact wfa_present custom p.fields k v hWFc hres hget

/-- Witness for C1: enriching a non-cloned base builder holding one user
field with a caller location leaves the base untouched and returns a
fresh cloned builder carrying the base entry plus file/line. -/
theorem C1_enrichment_clone_frame_witness :
    (WithCaller { fields := [("a", Value.vInt 1)], cloned := false } true "f.go" 3).self =
      { fields := [("a", Value.vInt 1)], cloned := false } ∧
    (WithCaller { fields := [("a", Value.vInt 1)], cloned := false } true "f.go" 3).ret.cloned = true ∧
    Fields.Get (WithCaller { fields := [("a", Value.vInt 1)], cloned := false } true "f.go" 3).ret.fields "a" =
      some (Value.vInt 1) ∧
    Fields.Get (WithCaller { fields := [("a", Value.vInt 1)], cloned := false } true "f.go" 3).ret.fields "file" =
      some (Value.vStr "f.go") := by
  have h := C1_enrichment_clone_frame { fields := [("a", Value.vInt 1)], cloned := false }
    (by decide) true "f.go" 3 [] [] (by decide)
  exact ⟨(h.2.1 rfl).2.1, h.1.1, (h.2.2.2.2.2.2.1 "a" (by decide) (by decide)).trans rfl,
    (h.2.2.2.2.2.2.2.1 rfl).1⟩

/-! Dispatch lemmas. -/

theorem dispatchAll_writes (efSet : Bool) (f : FieldsL) (outs : List OutputS) :
    (dispatchAll efSet f outs).writes = outs.map (fun o => (o.name, f)) := by
  induction outs with
  | nil => simp [dispatchAll]
  | cons o t ih => simp [dispatchAll, ih]

theorem dispatchAll_efCalls_false (f : FieldsL) (outs : List OutputS) :
    (dispatchAll false f outs).efCalls = [] := by
  induction outs with
  | nil => simp [dispatchAll]
  | cons o t ih => cases ho : o.writeErr <;> simp [dispatchAll, ho, ih]

theorem dispatchAll_efCalls_true (f : FieldsL) (outs : List OutputS) :
    (dispatchAll true f outs).efCalls = outs.filterMap (fun o => o.writeErr) := by
  induction outs with
  | nil => simp [dispatchAll]
  | cons o t ih => cases ho : o.writeErr <;> simp [dispatchAll, ho, ih]

theorem dispatchNamed_writes (efSet : Bool) (f : FieldsL) (outs : List OutputS)
    (names : List String) :
    (dispatchNamed efSet f outs names).writes =
      names.filterMap (fun n => (lookupOut outs n).map (fun o => (o.name, f))) := by
  induction names with
  | nil => simp [dispatchNamed]
  | cons n t ih =>
      cases hn : lookupOut outs n with
      | none => simp [dispatchNamed, hn, ih]
      | some o =>
          cases ho : o.writeErr <;> simp [dispatchNamed, hn, ho, ih]

theorem dispatchNamed_nil_outs (efSet : Bool) (f : FieldsL) (names : List String) :
    dispatchNamed efSet f [] names = { writes := [], efCalls := [] } := by
  induction names with
  | nil => rfl
  | cons n t ih => simp [dispatchNamed, lookupOut, ih]

theorem levelOf_flushFields (f : FieldsL) (L : Nat) (msg : String) (now : Nat) :
    levelOfFields (flushFields f L msg now) = L := by
  unfold levelOfFields flushFields
  rw [Get_set_ne _ _ _ _ (by decide), Get_set_ne _ _ _ _ (by decide), Get_set_eq]

theorem print_drop (st : LoggerState) (f : FieldsL) (names : List String)
    (h : st.lvl < levelOfFields f) :
    Logger.print st f names = (st, { writes := [], efCalls := [] }) := by
  simp [Logger.print, h]

theorem print_pass_base (st : LoggerState) (f : FieldsL) (names : List String)
    (h : levelOfFields f ≤ st.lvl) :
    (Logger.print st f names).1 = { st with base := NewLine } := by
  simp [Logger.print, Nat.not_lt.mpr h]

/-- Counterexample to C2 as stated: at threshold `LevelDebug` (above
`Mute`) an event stamped `LevelPrint` is claimed delivered by the
Print exception, but the gate `level > threshold` (255 > 5) drops it:
no sink writer is invoked. -/
theorem C2_severity_gate_counterexample :
    claimC2Delivered LevelPrint LevelDebug = true ∧
    (Logger.print
        { outputs := [{ name := "a", writeErr := none }], lvl := LevelDebug,
          efSet := false, base := NewLine }
        (flushFields [] LevelPrint "m" 0) []).2.writes = [] := by
  exact ⟨rfl, rfl⟩

/-- C2 (amended): an event stamped at level `L` is delivered to the
sinks iff `L ≤ T` under the numeric order, with no exception for
`Print`: a `LevelPrint` (255) event is delivered only when the
threshold is exactly `LevelPrint`; a dropped event invokes no sink
writer and no error callback. -/
theorem C2_severity_gate (st : LoggerState) (f : FieldsL) (L : Nat)
    (msg : String) (now : Nat) :
    (L ≤ st.lvl →
       (Logger.print st (flushFields f L msg now) []).2.writes =
         st.outputs.map (fun o => (o.name, flushFields f L msg now))) ∧
    (st.lvl < L →
       (Logger.print st (flushFields f L msg now) []).2 =
         { writes := [], efCalls := [] }) ∧
    (st.outputs ≠ [] →
       ((Logger.print st (flushFields f L msg now) []).2.writes ≠ [] ↔ L ≤ st.lvl)) := by
  have hl := levelOf_flushFields f L msg now
  refine ⟨fun h => ?_, fun h => ?_, fun hne => ?_⟩
  · simp [Logger.print, hl, Nat.not_lt.mpr h, dispatchAll_writes]
  · simp [Logger.print, hl, h]
  · by_cases h : L ≤ st.lvl
    · simp [Logger.print, hl, Nat.not_lt.mpr h, dispatchAll_writes, h, hne]
    · simp [Logger.print, hl, Nat.lt_of_not_le h, h]

/-- Witness for C2 (amended): one sink, threshold `LevelDebug`; an
`Info` event is delivered to it and a `Print` event is dropped. -/
theorem C2_severity_gate_witness :
    (Logger.print
        { outputs := [{ name := "a", writeErr := none }], lvl := LevelDebug,
          efSet := false, base := NewLine }
        (flushFields [] LevelInfo "m" 0) []).2.writes =
      [({ name := "a", writeErr := none } : OutputS)].map
        (fun o => (o.name, flushFields [] LevelInfo "m" 0)) ∧
    (Logger.print
        { outputs := [{ name := "a", writeErr := none }], lvl := LevelDebug,
          efSet := false, base := NewLine }
        (flushFields [] LevelPrint "m" 0) []).2 =
      { writes := [], efCalls := [] } :=
  ⟨(C2_severity_gate
      { outputs := [{ name := "a", writeErr := none }], lvl := LevelDebug,
        efSet := false, base := NewLine } [] LevelInfo "m" 0).1 (by decide),
   (C2_severity_gate
      { outputs := [{ name := "a", writeErr := none }], lvl := LevelDebug,
        efSet := false, base := NewLine } [] LevelPrint "m" 0).2.1 (by decide)⟩

/-- C3 (code bug, evaluated at the failing input): `Printf`/`Println`
called with custom level 42 on a logger at threshold `LevelPrint` stamp
the emitted FieldSet's loglevel with `LevelPrint` (255), not with the
caller-chosen 42 — the level argument is ignored by the source. -/
theorem C3_printf_ignores_level :
    (Printf
        { outputs := [{ name := "a", writeErr := none }], lvl := LevelPrint,
          efSet := false, base := NewLine } 42 "m" 0).2.writes =
      [("a", flushFields [] LevelPrint "m" 0)] ∧
    (Println
        { outputs := [{ name := "a", writeErr := none }], lvl := LevelPrint,
          efSet := false, base := NewLine } 42 "m" 0).2.writes =
      [("a", flushFields [] LevelPrint ("m" ++ "\n") 0)] ∧
    Fields.Get (flushFields [] LevelPrint "m" 0) "loglevel" =
      some (.vLevel LevelPrint) ∧
    LevelPrint ≠ 42 := by
  refine ⟨rfl, rfl, rfl, by decide⟩

theorem flushBase_pass (st : LoggerState) (L : Nat) (msg : String) (now : Nat)
    (h : L ≤ st.lvl) : (flushBase st L msg now).1.base = NewLine := by
  unfold flushBase
  rw [print_pass_base _ _ _ (by simpa [levelOf_flushFields] using h)]

/-- C7 (amended): after an emission call on the logger's base builder
whose event passes the severity gate, the base builder's FieldSet is
empty (the logger replaces `l.Log` with a fresh line inside `print`);
an emission dropped by the gate performs no such reset and the stamped
fields remain on the base builder (see the counterexample). -/
theorem C7_base_reset (st : LoggerState) (msg : String) (now : Nat)
    (err : Value) (lvlArg : Nat) :
    (LevelDebug ≤ st.lvl → (Debugf st msg now).1.base.fields = []) ∧
    (LevelDebug ≤ st.lvl → (Debugln st msg now).1.base.fields = []) ∧
    (LevelInfo ≤ st.lvl → (Infof st msg now).1.base.fields = []) ∧
    (LevelInfo ≤ st.lvl → (Infoln st msg now).1.base.fields = []) ∧
    (LevelWarning ≤ st.lvl → (Warningf st msg now).1.base.fields = []) ∧
    (LevelWarning ≤ st.lvl → (Warningln st msg now).1.base.fields = []) ∧
    (LevelError ≤ st.lvl → (Errorf st err msg now).1.base.fields = []) ∧
    (LevelError ≤ st.lvl → (Errorln st err msg now).1.base.fields = []) ∧
    (LevelPrint ≤ st.lvl → (Printf st lvlArg msg now).1.base.fields = []) ∧
    (LevelPrint ≤ st.lvl → (Println st lvlArg msg now).1.base.fields = []) := by
  refine ⟨fun h => ?_, fun h => ?_, fun h => ?_, fun h => ?_, fun h => ?_,
    fun h => ?_, fun h => ?_, fun h => ?_, fun h => ?_, fun h => ?_⟩
  · rw [show Debugf st msg now = flushBase st LevelDebug msg now from rfl,
      flushBase_pass st LevelDebug msg now h]
    rfl
  · rw [show Debugln st msg now = flushBase st LevelDebug (msg ++ "\n") now from rfl,
      flushBase_pass st LevelDebug (msg ++ "\n") now h]
    rfl
  · rw [show Infof st msg now = flushBase st LevelInfo msg now from rfl,
      flushBase_pass st LevelInfo msg now h]
    rfl
  · rw [show Infoln st msg now = flushBase st LevelInfo (msg ++ "\n") now from rfl,
      flushBase_pass st LevelInfo (msg ++ "\n") now h]
    rfl
  · rw [show Warningf st msg now = flushBase st LevelWarning msg now from rfl,
      flushBase_pass st LevelWarning msg now h]
    rfl
  · rw [show Warningln st msg now = flushBase st LevelWarning (msg ++ "\n") now from rfl,
      flushBase_pass st LevelWarning (msg ++ "\n") now h]
    rfl
  · rw [show Errorf st err msg now =
        flushBase { st with base := { st.base with fields := Fields.set st.base.fields "error" err } }
          LevelError msg now from rfl,
      flushBase_pass
        { st with base := { st.base with fields := Fields.set st.base.fields "error" err } }
        LevelError msg now h]
    rfl
  · rw [show Errorln st err msg now =
        flushBase { st with base := { st.base with fields := Fields.set st.base.fields "error" err } }
          LevelError (msg ++ "\n") now from rfl,
      flushBase_pass
        { st with base := { st.base with fields := Fields.set st.base.fields "error" err } }
        LevelError (msg ++ "\n") now h]
    rfl
  · rw [show Printf st lvlArg msg now = flushBase st LevelPrint msg now from rfl,
      flushBase_pass st LevelPrint msg now h]
    rfl
  · rw [show Println st lvlArg msg now = flushBase st LevelPrint (msg ++ "\n") now from rfl,
      flushBase_pass st LevelPrint (msg ++ "\n") now h]
    rfl

/-- Witness for C7 (amended): an `Infoln` at the default `LevelDebug`
threshold passes the gate and leaves the base builder empty. -/
theorem C7_base_reset_witness :
    (Infoln { outputs := [], lvl := LevelDebug, efSet := false, base := NewLine }
        "m" 0).1.base.fields = [] :=
  (C7_base_reset { outputs := [], lvl := LevelDebug, efSet := false, base := NewLine }
    "m" 0 Value.vNil 0).2.2.2.1 (by decide)

/-- Counterexample to C7 as stated: an `Infoln` on the base builder at
threshold `LevelMute` is gated out, `print` returns before replacing
`l.Log`, and the stamped loglevel/message/time fields remain on the
base builder's FieldSet — it is not empty after the call. -/
theorem C7_base_reset_counterexample :
    (Infoln { outputs := [], lvl := LevelMute, efSet := false, base := NewLine }
        "m" 0).1.base.fields ≠ [] := by decide

/-- C9: dispatch of an event that passes the gate writes to every
registered sink regardless of write failures (a failing sink never
aborts the remaining ones and `print` has no error channel at all);
each write error is passed to the error callback exactly when one is
configured and dropped otherwise; with a named-subset dispatch every
present named sink is still written; with zero registered sinks nothing
is written and the callback is never invoked. -/
theorem C9_dispatch_resilience (st : LoggerState) (f : FieldsL)
    (h : levelOfFields f ≤ st.lvl) :
    ((Logger.print st f []).2.writes = st.outputs.map (fun o => (o.name, f))) ∧
    (st.efSet = false → (Logger.print st f []).2.efCalls = []) ∧
    (st.efSet = true →
       (Logger.print st f []).2.efCalls = st.outputs.filterMap (fun o => o.writeErr)) ∧
    (∀ names, 0 < names.length →
       (Logger.print st f names).2.writes =
         names.filterMap (fun n => (lookupOut st.outputs n).map (fun o => (o.name, f)))) ∧
    (st.outputs = [] → ∀ names,
       (Logger.print st f names).2 = { writes := [], efCalls := [] }) := by
  have hgate : ¬st.lvl < levelOfFields f := Nat.not_lt.mpr h
  refine ⟨?_, fun he => ?_, fun he => ?_, fun names hn => ?_, fun ho names => ?_⟩
  · simp [Logger.print, hgate, dispatchAll_writes]
  · simp [Logger.print, hgate, he, dispatchAll_efCalls_false]
  · simp [Logger.print, hgate, he, dispatchAll_efCalls_true]
  · simp [Logger.print, hgate, hn, dispatchNamed_writes]
  · rcases names with _ | ⟨n, t⟩
    · simp [Logger.print, hgate, ho, dispatchAll]
    · simp [Logger.print, hgate, ho, dispatchNamed_nil_outs]

/-- Witness for C9: two sinks, the first failing; both are written, the
configured callback receives exactly the failure, and with no sinks
nothing happens. -/
theorem C9_dispatch_resilience_witness :
    (Logger.print
        { outputs := [{ name := "a", writeErr := some "boom" },
                      { name := "b", writeErr := none }],
          lvl := LevelDebug, efSet := true, base := NewLine }
        (flushFields [] LevelInfo "m" 0) []).2.writes =
      [({ name := "a", writeErr := some "boom" } : OutputS),
       ({ name := "b", writeErr := none } : OutputS)].map
        (fun o => (o.name, flushFields [] LevelInfo "m" 0)) ∧
    (Logger.print
        { outputs := [{ name := "a", writeErr := some "boom" },
                      { name := "b", writeErr := none }],
          lvl := LevelDebug, efSet := true, base := NewLine }
        (flushFields [] LevelInfo "m" 0) []).2.efCalls =
      [({ name := "a", writeErr := some "boom" } : OutputS),
       ({ name := "b", writeErr := none } : OutputS)].filterMap
        (fun o => o.writeErr) ∧
    (Logger.print
        { outputs := [], lvl := LevelDebug, efSet := true, base := NewLine }
        (flushFields [] LevelInfo "m" 0) []).2 =
      { writes := [], efCalls := [] } := by
  have h1 := C9_dispatch_resilience
    { outputs := [{ name := "a", writeErr := some "boom" },
                  { name := "b", writeErr := none }],
      lvl := LevelDebug, efSet := true, base := NewLine }
    (flushFields [] LevelInfo "m" 0) (by decide)
  have h2 := C9_dispatch_resilience
    { outputs := [], lvl := LevelDebug, efSet := true, base := NewLine }
    (flushFields [] LevelInfo "m" 0) (by decide)
  exact ⟨h1.1, h1.2.2.1 rfl, h2.2.2.2.2 rfl []⟩

/-! Lemmas about the modelled string functions, leading to the
`Custom(n)` parsing behaviour of `UnmarshalText`. -/

theorem digitsVal_digits (t : List Char) :
    ∀ acc m, digitsVal t acc = some m → ∀ c ∈ t, isDigitC c = true := by
  induction t with
  | nil => intro acc m _ c hc; simp at hc
  | cons a t ih =>
      intro acc m h c hc
      by_cases hd : isDigitC a
      · rcases List.mem_cons.mp hc with rfl | hc'
        · exact hd
        · exact ih _ m (by simpa [digitsVal, hd] using h) c hc'
      · simp [digitsVal, hd] at h

theorem parseDigits_digits (s : List Char) (m : Nat)
    (h : parseDigits s = some m) : ∀ c ∈ s, isDigitC c = true := by
  by_cases he : s.isEmpty
  · simp [parseDigits, he] at h
  · exact digitsVal_digits s 0 m (by simpa [parseDigits, he] using h)

theorem atoi_chars (s : List Char) (n : Int) (h : Atoi s = some n) :
    ∀ c ∈ s, c.toNat = 43 ∨ c.toNat = 45 ∨ isDigitC c = true := by
  cases s with
  | nil => simp [Atoi] at h
  | cons a t =>
      intro c hc
      by_cases h43 : a.toNat = 43
      · rcases List.mem_cons.mp hc with rfl | hc'
        · exact Or.inl h43
        · cases hp : parseDigits t with
          | none => simp [Atoi, h43, hp] at h
          | some m => exact Or.inr (Or.inr (parseDigits_digits t m hp c hc'))
      · by_cases h45 : a.toNat = 45
        · rcases List.mem_cons.mp hc with rfl | hc'
          · exact Or.inr (Or.inl h45)
          · cases hp : parseDigits t with
            | none => simp [Atoi, h43, h45, hp] at h
            | some m => exact Or.inr (Or.inr (parseDigits_digits t m hp c hc'))
        · cases hp : parseDigits (a :: t) with
          | none => simp [Atoi, h43, h45, hp] at h
          | some m => exact Or.inr (Or.inr (parseDigits_digits (a :: t) m hp c hc))

theorem lowerChar_eq_self (c : Char) (h : c.toNat < 65) : lowerChar c = c := by
  simp only [lowerChar]
  rw [if_neg (by omega)]

theorem isSpaceC_false (c : Char) (h : 43 ≤ c.toNat ∧ c.toNat ≤ 57) :
    isSpaceC c = false := by
  simp only [isSpaceC, Bool.or_eq_false_iff, decide_eq_false_iff_not]
  omega

theorem atoi_char_bounds (s : List Char) (n : Int) (h : Atoi s = some n) :
    ∀ c ∈ s, 43 ≤ c.toNat ∧ c.toNat ≤ 57 := by
  intro c hc
  rcases atoi_chars s n h c hc with h' | h' | h'
  · omega
  · omega
  · simp only [isDigitC, Bool.and_eq_true, decide_eq_true_eq] at h'
    omega

theorem toLowerL_id_of_bounds (s : List Char)
    (hb : ∀ c ∈ s, c.toNat < 65) : toLowerL s = s := by
  unfold toLowerL
  induction s with
  | nil => rfl
  | cons a t ih =>
      rw [List.map_cons, lowerChar_eq_self a (hb a (List.mem_cons_self a t)),
        ih (fun c hc => hb c (List.mem_cons_of_mem a hc))]

theorem toLowerL_atoi (s : List Char) (n : Int) (h : Atoi s = some n) :
    toLowerL s = s :=
  toLowerL_id_of_bounds s (fun c hc => by
    have := atoi_char_bounds s n h c hc; omega)

theorem dropWhile_id_of_false (p : Char → Bool) (s : List Char)
    (h : ∀ c ∈ s, p c = false) : s.dropWhile p = s := by
  cases s with
  | nil => rfl
  | cons a t => simp [List.dropWhile_cons, h a (List.mem_cons_self a t)]

theorem trimSpaceL_atoi (s : List Char) (n : Int) (h : Atoi s = some n) :
    trimSpaceL s = s := by
  have hsp : ∀ c ∈ s, isSpaceC c = false := fun c hc =>
    isSpaceC_false c (atoi_char_bounds s n h c hc)
  unfold trimSpaceL
  rw [dropWhile_id_of_false _ s hsp,
    dropWhile_id_of_false _ s.reverse (fun c hc => hsp c (List.mem_reverse.mp hc)),
    List.reverse_reverse]

theorem cons_ne_of_head {a b : Char} (hab : a ≠ b) (x y : List Char) :
    (a :: x) ≠ (b :: y) := by
  intro he
  injection he with h1 _
  exact hab h1

/-- C10: `UnmarshalText` accepts `Custom(<digits>)` for every integer
literal `strconv.Atoi` accepts, truncating the parsed value modulo 256
into the level (`byteOfInt`) with no `UnmarshalLevelError`. -/
theorem C10_custom_truncation (s : List Char) (n : Int) (h : Atoi s = some n) :
    UnmarshalText (['C', 'u', 's', 't', 'o', 'm', '('] ++ s ++ [')']) =
      some (byteOfInt n) := by
  have hlow : toLowerL (['C', 'u', 's', 't', 'o', 'm', '('] ++ s ++ [')']) =
      ['c', 'u', 's', 't', 'o', 'm', '('] ++ s ++ [')'] := by
    unfold toLowerL
    rw [List.map_append, List.map_append]
    have h1 : List.map lowerChar ['C', 'u', 's', 't', 'o', 'm', '('] =
        ['c', 'u', 's', 't', 'o', 'm', '('] := by decide
    have h2 : List.map lowerChar [')'] = [')'] := by decide
    have h3 : List.map lowerChar s = s := toLowerL_atoi s n h
    rw [h1, h2, h3]
  have hcons : ['c', 'u', 's', 't', 'o', 'm', '('] ++ s ++ [')'] =
      'c' :: 'u' :: 's' :: 't' :: 'o' :: 'm' :: '(' :: (s ++ [')']) := by
    simp
  unfold UnmarshalText
  rw [hlow, hcons]
  rw [if_neg (cons_ne_of_head (by decide) _ _),
    if_neg (cons_ne_of_head (by decide) _ _),
    if_neg (cons_ne_of_head (by decide) _ _),
    if_neg (cons_ne_of_head (by decide) _ _),
    if_neg (cons_ne_of_head (by decide) _ _),
    if_neg (cons_ne_of_head (by decide) _ _),
    if_neg (cons_ne_of_head (by decide) _ _)]
  have hpre : hasPrefixL ('c' :: 'u' :: 's' :: 't' :: 'o' :: 'm' :: '(' :: (s ++ [')']))
      ['c', 'u', 's', 't', 'o', 'm'] = true := by
    simp [hasPrefixL]
  rw [if_pos hpre]
  have hdrop : dropPrefixL ('c' :: 'u' :: 's' :: 't' :: 'o' :: 'm' :: '(' :: (s ++ [')']))
      ['c', 'u', 's', 't', 'o', 'm'] = '(' :: (s ++ [')']) := by
    simp [dropPrefixL, hpre]
  rw [hdrop]
  have hrev : ('(' :: (s ++ [')'])).reverse = ')' :: (s.reverse ++ ['(']) := by
    simp
  have hpre2 : hasPrefixL ('(' :: (s ++ [')'])) ['('] = true := by
    simp [hasPrefixL]
  have hsuf : hasSuffixL ('(' :: (s ++ [')'])) [')'] = true := by
    unfold hasSuffixL
    rw [hrev]
    simp [hasPrefixL]
  rw [if_pos (by rw [hpre2, hsuf]; rfl)]
  have hdrop2 : dropPrefixL ('(' :: (s ++ [')'])) ['('] = s ++ [')'] := by
    simp [dropPrefixL, hpre2]
  rw [hdrop2]
  have hdrop3 : dropSuffixL (s ++ [')']) [')'] = s := by
    unfold dropSuffixL hasSuffixL
    rw [List.reverse_append]
    simp [hasPrefixL]
  rw [hdrop3, trimSpaceL_atoi s n h, h]

/-- Witness for C10: "Custom(300)" parses to level 44 and "Custom(2)"
to the built-in Error level 2. -/
theorem C10_custom_truncation_witness :
    UnmarshalText (['C', 'u', 's', 't', 'o', 'm', '('] ++ ['3', '0', '0'] ++ [')']) =
      some (byteOfInt 300) ∧
    byteOfInt 300 = 44 ∧
    UnmarshalText (['C', 'u', 's', 't', 'o', 'm', '('] ++ ['2'] ++ [')']) =
      some (byteOfInt 2) ∧
    byteOfInt 2 = LevelError :=
  ⟨C10_custom_truncation ['3', '0', '0'] 300 (by decide), by decide,
   C10_custom_truncation ['2'] 2 (by decide), by decide⟩

/-- C4: for every defined built-in level (None, Mute, Error, Warning,
Info, Debug, Print) and every value in `[Custom, Print)` — together,
every byte value — unmarshalling the marshalled text yields the level
back, with no error in either direction (`MarshalText` never errors and
`UnmarshalText` succeeds with `some`). -/
theorem C4_level_roundtrip : ∀ n, n < 256 → UnmarshalText (MarshalText n) = some n := by
  set_option maxRecDepth 100000 in decide

/-- Witness for C4 at the built-in Info level and a custom level. -/
theorem C4_level_roundtrip_witness :
    UnmarshalText (MarshalText LevelInfo) = some LevelInfo ∧
    UnmarshalText (MarshalText 42) = some 42 :=
  ⟨C4_level_roundtrip LevelInfo (by decide), C4_level_roundtrip 42 (by decide)⟩

end Logex
